import Mathlib

/-!
Shallow embedding of the jmdict-vi enrichment pipeline
(`1_split_xml_file.py`, `2_add_vi.py`, `3_merge_xml_file.py`).

XML element trees are modelled by the inductive `Elem` (tag, attributes,
optional text, ordered children), mirroring `xml.etree.ElementTree.Element`.
The SQLite store is modelled by `DB`, a pair of row lists; the two SQL
queries of the source are modelled as list filters.  Python `None`-able
string fields are `Option String`; Python truthiness on them is `truthy`.
-/

namespace JmdictVi

/-- Model of `xml.etree.ElementTree.Element`: tag, attributes, text, children.
An empty element (`<keb/>`) has `text = none`, exactly as in ElementTree. -/
inductive Elem where
  | node (tag : String) (attrs : List (String × String)) (text : Option String)
      (children : List Elem)

def Elem.tag : Elem → String
  | .node t _ _ _ => t

def Elem.attrs : Elem → List (String × String)
  | .node _ a _ _ => a

def Elem.text : Elem → Option String
  | .node _ _ x _ => x

def Elem.children : Elem → List Elem
  | .node _ _ _ cs => cs

def Elem.withChildren : Elem → List Elem → Elem
  | .node t a x _, cs => .node t a x cs

/-- Python truthiness of an optional string: `None` and `""` are falsy. -/
def truthy : Option String → Bool
  | none => false
  | some s => s != ""

/-- Python `f"{x}"` on an optional string: `None` renders as `"None"`. -/
def pyShow : Option String → String
  | none => "None"
  | some s => s

/-- A raw row of the `words` table (`dict.db`); string columns are nullable. -/
structure WordRow where
  word : Option String
  phonetic : Option String
  mean : Option String
  is_common : Option Nat
  priority : Option String
  info : Option String
  anki : Option String
deriving DecidableEq

/-- A raw row of the `kanji` table (`dict.db`). The `Kanji` class of the
source stores these columns unchanged, so it is the same structure. -/
structure KanjiRow where
  kanji : String
  hanzi : Option String
  onyomi : Option String
  kunyomi : Option String
  mean : Option String
  level : Option String
  priority : Option String
  info : Option String
  anki : Option String
deriving DecidableEq

/-- The character `c` lies in the Vietnamese-script band U+00C0..U+1EF9. -/
def isVietChar (c : Char) : Bool :=
  0xC0 ≤ c.toNat && c.toNat ≤ 0x1EF9

/-- Python `str.split(sep)` for a one-character separator (the source only
splits on `';'` and `' '`): empty pieces are kept, `"".split(sep) = [""]`. -/
def splitOnChar (sep : Char) : List Char → List (List Char)
  | [] => [[]]
  | c :: rest =>
    match splitOnChar sep rest with
    | h :: t => if c == sep then [] :: h :: t else (c :: h) :: t
    | [] => [[]]

def py_split (sep : Char) (s : String) : List String :=
  (splitOnChar sep s.data).map String.mk

def dropLeadingWS : List Char → List Char
  | [] => []
  | c :: rest => if c.isWhitespace then dropLeadingWS rest else c :: rest

/-- Python `str.strip()`: remove leading and trailing whitespace. -/
def py_strip (s : String) : String :=
  String.mk ((dropLeadingWS (dropLeadingWS s.data.reverse).reverse))

/-- `Word._process_mean`: split the meaning on `;`, trim each clause, keep
the clauses holding at least one character in U+00C0..U+1EF9, join with
`"; "`; if no clause qualifies return the original string unchanged. -/
def process_mean (mean : String) : String :=
  let meanings := (py_split ';' mean).map py_strip
  let vietnamese_meanings := meanings.filter (fun m => m.data.any isVietChar)
  if vietnamese_meanings.isEmpty then mean else String.intercalate "; " vietnamese_meanings

/-- The `Word` class after its constructor ran: `word` is stripped,
`mean` is processed (`""` when the column was NULL or empty). -/
structure Word where
  word : String
  phonetic : Option String
  mean : String
  is_common : Bool
  priority : Option String
  info : Option String
  anki : Option String
deriving DecidableEq

/-- `Word.__init__` applied to a database row. -/
def mkWord (r : WordRow) : Word :=
  { word := match r.word with
      | some w => py_strip w
      | none => ""
    phonetic := r.phonetic
    mean := match r.mean with
      | some m => if m == "" then "" else process_mean m
      | none => ""
    is_common := match r.is_common with
      | some n => n != 0
      | none => false
    priority := r.priority
    info := r.info
    anki := r.anki }

/-- The `StarDict` aggregate built per entry. -/
structure StarDict where
  hanzi : String
  hanzi_anki : List String
  mean : String
  mean_anki : Option String
deriving DecidableEq

/-- The meaning sense element: a `gloss` tagged `xml:lang="vi"` holding
`mean`, plus a `misc` holding `mean_anki` when that is truthy. -/
def StarDict.mean_sense (sd : StarDict) : Elem :=
  Elem.node "sense" [] none
    ([Elem.node "gloss" [("xml:lang", "vi")] (some sd.mean) []] ++
      (if truthy sd.mean_anki then [Elem.node "misc" [] sd.mean_anki []] else []))

/-- The character sense element: an untagged `gloss` holding `hanzi`,
plus one `misc` per entry of `hanzi_anki`. -/
def StarDict.hanzi_sense (sd : StarDict) : Elem :=
  Elem.node "sense" [] none
    ([Elem.node "gloss" [] (some sd.hanzi) []] ++
      sd.hanzi_anki.map (fun a => Elem.node "misc" [] (some a) []))

/-- `StarDict.to_xml_sense_elements`: the meaning sense when `mean` is
non-empty, then the character sense when `hanzi` is non-empty. -/
def StarDict.to_xml_sense_elements (sd : StarDict) : List Elem :=
  (if sd.mean != "" then [sd.mean_sense] else []) ++
    (if sd.hanzi != "" then [sd.hanzi_sense] else [])

/-- The SQLite database `dict.db`: a `words` table and a `kanji` table. -/
structure DB where
  words : List WordRow
  kanji : List KanjiRow

/-- Character-by-character matching for an anchored-wildcard `LIKE` pattern:
`phonetic LIKE '%s%'` holds when `s` occurs as a substring, with SQLite's
default ASCII case folding.  (The model assumes, as the data does, that the
search string itself contains no `%` or `_` metacharacters.) -/
def asciiLower (c : Char) : Char :=
  if 65 ≤ c.toNat && c.toNat ≤ 90 then Char.ofNat (c.toNat + 32) else c

def leadsWith : List Char → List Char → Bool
  | [], _ => true
  | _ :: _, [] => false
  | a :: as, b :: bs => a == b && leadsWith as bs

def occursIn (q : List Char) (hay : List Char) : Bool :=
  match hay with
  | [] => q.isEmpty
  | _ :: t => leadsWith q hay || occursIn q t

def sqlLikeContains (needle hay : String) : Bool :=
  occursIn (needle.data.map asciiLower) (hay.data.map asciiLower)

/-- `get_words`: exact query `word = ?` first; only when it returns no row,
the fallback query `phonetic LIKE '%?%'`.  The search word is the raw
element text, so it may be `None`: `word = NULL` matches no row, and the
f-string renders `None` into the LIKE pattern as the literal `"None"`. -/
def get_words (db : DB) (search_word : Option String) : List Word :=
  let exact := db.words.filter (fun r =>
    match r.word, search_word with
    | some w, some s => w == s
    | _, _ => false)
  let results :=
    if exact.isEmpty then
      db.words.filter (fun r =>
        match r.phonetic with
        | some p => sqlLikeContains (pyShow search_word) p
        | none => false)
    else exact
  results.map mkWord

/-- `get_kanji`: `SELECT ... FROM kanji WHERE kanji = ?` with `fetchone`,
i.e. the first row whose key equals the queried character. -/
def get_kanji (db : DB) (kanji_char : String) : Option KanjiRow :=
  db.kanji.find? (fun r => r.kanji == kanji_char)

/-- `get_kanji_from_word`: for each character of the word in the CJK range
U+4E00..U+9FFF, look it up; keep the rows that were found, in order. -/
def get_kanji_from_word (db : DB) (word : String) : List KanjiRow :=
  word.data.filterMap (fun c =>
    if 0x4E00 ≤ c.toNat && c.toNat ≤ 0x9FFF then get_kanji db (String.mk [c]) else none)

/-- `filter_word`: first scan for a word whose (stripped) headword equals the
input, then for one whose truthy phonetic field, split on `" "`, contains the
input as a token.  A `None` input equals no `str` and is a member of no list
of `str`s, so both scans fail on it, as in Python. -/
def filter_word (input_word : Option String) (word_list : List Word) : Option Word :=
  match word_list.find? (fun w =>
    match input_word with
    | some q => w.word == q
    | none => false) with
  | some w => some w
  | none =>
    word_list.find? (fun w =>
      match w.phonetic, input_word with
      | some p, some q => p != "" && (py_split ' ' p).contains q
      | _, _ => false)

/-- `find_relevant_word`: try every `keb` element in order, then every `reb`
element in order; for each, query the store and select with `filter_word`;
the first element yielding a word wins. -/
def find_relevant_word (db : DB) (kanji_elements reading_elements : List Elem) :
    Option Word :=
  match kanji_elements.findSome? (fun k_ele =>
      filter_word k_ele.text (get_words db k_ele.text)) with
  | some w => some w
  | none =>
    reading_elements.findSome? (fun r_ele =>
      filter_word r_ele.text (get_words db r_ele.text))

/-- One step of the deduplicating kanji collection of `process_entry`:
append the rows for one headword form, skipping keys already seen. -/
def add_kanjis (acc : List String × List KanjiRow) (ks : List KanjiRow) :
    List String × List KanjiRow :=
  ks.foldl (fun acc k =>
    if acc.1.contains k.kanji then acc else (k.kanji :: acc.1, acc.2 ++ [k])) acc

/-- The kanji-collection loop of `process_entry` over the `keb` texts, with
its `seen_kanji`/`kanjis` accumulator.  `get_kanji_from_word(conn, None)`
iterates over `None` in Python, which raises `TypeError`, so a `None` text
makes the whole loop fail. -/
def collect_kanjis_loop (db : DB) :
    List (Option String) → List String × List KanjiRow →
      Except String (List String × List KanjiRow)
  | [], acc => Except.ok acc
  | none :: _, _ => Except.error "TypeError: NoneType is not iterable"
  | some s :: rest, acc =>
    collect_kanjis_loop db rest (add_kanjis acc (get_kanji_from_word db s))

def collect_kanjis (db : DB) (texts : List (Option String)) :
    Except String (List String × List KanjiRow) :=
  collect_kanjis_loop db texts ([], [])

/-- The `hanzi` string of the `StarDict`: `" | ".join(k.hanzi for k in kanjis if k.hanzi)`. -/
def hanzi_join (kanjis : List KanjiRow) : String :=
  String.intercalate " | " ((kanjis.filter (fun k => truthy k.hanzi)).map (fun k => pyShow k.hanzi))

/-- The `hanzi_anki` notes: one string per row with a truthy `anki` column. -/
def anki_notes (kanjis : List KanjiRow) : List String :=
  (kanjis.filter (fun k => truthy k.anki)).map (fun k => k.kanji ++ " : " ++ pyShow k.anki)

/-- Index of the first child with tag `sense`:
`list(entry).index(entry.findall('./sense')[0])` when a sense child exists. -/
def first_sense_index : List Elem → Option Nat
  | [] => none
  | c :: rest =>
    if c.tag == "sense" then some 0 else (first_sense_index rest).map (· + 1)

/-- The sense-insertion block of `process_entry`: with a non-empty block
list, splice it immediately before the first existing `sense` child
(repeated `insert` at that index over the reversed list), or append the
blocks when the entry has no `sense` child. -/
def insert_sense_elements (entry : Elem) (xml_sense_elements : List Elem) : Elem :=
  if xml_sense_elements.isEmpty then entry
  else
    match first_sense_index entry.children with
    | some i =>
      entry.withChildren
        (entry.children.take i ++ xml_sense_elements ++ entry.children.drop i)
    | none => entry.withChildren (entry.children ++ xml_sense_elements)

/-- `entry.findall('./k_ele/keb')`: the `keb` children of the `k_ele`
children, in document order. -/
def findall_path (entry : Elem) (outer inner : String) : List Elem :=
  (entry.children.filter (fun c => c.tag == outer)).flatMap
    (fun k => k.children.filter (fun c => c.tag == inner))

/-- The body of `process_entry` on an already-parsed entry element.  The
kanji-collection `TypeError` propagates; otherwise the `StarDict` is built
from the collected rows and the selected word (the source binds
`find_relevant_word`'s result once and reads it twice; the pure call is
written out twice here). -/
def process_entry_core (db : DB) (entry : Elem) : Except String Elem :=
  match collect_kanjis db ((findall_path entry "k_ele" "keb").map Elem.text) with
  | Except.error e => Except.error e
  | Except.ok collected =>
    Except.ok (insert_sense_elements entry
      (StarDict.to_xml_sense_elements
        { hanzi := hanzi_join collected.2
          hanzi_anki := anki_notes collected.2
          mean :=
            match find_relevant_word db (findall_path entry "k_ele" "keb")
                (findall_path entry "r_ele" "reb") with
            | some w => w.mean
            | none => ""
          mean_anki :=
            match find_relevant_word db (findall_path entry "k_ele" "keb")
                (findall_path entry "r_ele" "reb") with
            | some w => w.anki
            | none => some "" }))

/-- The transportable serialized form of an entry, as seen by the pipeline:
a string either parses back to the element it was printed from
(`ET.tostring`/`ET.fromstring` round-trip) or is corrupt and fails to parse. -/
inductive StrForm where
  | good (e : Elem)
  | bad

def ET_tostring (e : Elem) : StrForm := StrForm.good e

def ET_fromstring : StrForm → Except String Elem
  | .good e => Except.ok e
  | .bad => Except.error "ParseError"

/-- `process_entry` as the worker runs it: parse the entry string, run the
core, serialize the result.  Exceptions (parse error, `TypeError` from a
`None` headword text) are not caught anywhere in the worker. -/
def process_entry (db : DB) (entry_str : StrForm) : Except String StrForm :=
  match ET_fromstring entry_str with
  | Except.error e => Except.error e
  | Except.ok entry =>
    match process_entry_core db entry with
    | Except.error e => Except.error e
    | Except.ok modified => Except.ok (ET_tostring modified)

/-- The scatter-gather table of the worker pool: workers complete tasks in
the order given by `order` (a permutation of the indices when no task is
lost), each completion writing its result into the slot of its own index. -/
def gather_results (db : DB) (entry_strs : List StrForm) (order : List Nat) :
    List (Option (Except String StrForm)) :=
  order.foldl (fun tbl i =>
    match entry_strs[i]? with
    | some t => tbl.set i (some (process_entry db t))
    | none => tbl) (List.replicate entry_strs.length none)

/-- Reading the gathered results back in index order, as `list(pool.imap ...)`
does: a worker exception re-raises at its index and aborts the collection. -/
def drain_results : List (Option (Except String StrForm)) → Except String (List StrForm)
  | [] => Except.ok []
  | none :: _ => Except.error "lost task"
  | some (Except.error e) :: _ => Except.error e
  | some (Except.ok s) :: rest => (drain_results rest).map (fun l => s :: l)

/-- `pool.imap(process_entry, entry_strs)` consumed into a list: results in
input order, whatever completion order the scheduler chose. -/
def pool_imap (db : DB) (order : List Nat) (entry_strs : List StrForm) :
    Except String (List StrForm) :=
  drain_results (gather_results db entry_strs order)

/-- The fan-in loop of the orchestrator: `root[i] = ET.fromstring(modified)`
with fallback to the original entry on a parse error. -/
def collect_into_root (entries : List Elem) (modified : List StrForm) : List Elem :=
  List.zipWith (fun orig ms =>
    match ET_fromstring ms with
    | Except.ok e => e
    | Except.error _ => orig) entries modified

/-- `update_jmdict_with_vietnamese_parallel` on the entry list of the input
corpus, parameterized by the scheduler's completion order. -/
def update_jmdict_with_vietnamese_parallel (db : DB) (order : List Nat)
    (entries : List Elem) : Except String (List Elem) :=
  match pool_imap db order (entries.map ET_tostring) with
  | Except.error e => Except.error e
  | Except.ok modified_entry_strs =>
    Except.ok (collect_into_root entries modified_entry_strs)

/-- `merge_xml_files` over the parse outcomes of the discovered chunk files,
in discovery order: well-formed files contribute their `entry` children in
order; a file whose parse fails is skipped. -/
def merge_xml_files (files : List (Except String Elem)) : Elem :=
  files.foldl (fun merged_root f =>
    match f with
    | Except.ok root =>
      merged_root.withChildren
        (merged_root.children ++ root.children.filter (fun c => c.tag == "entry"))
    | Except.error _ => merged_root) (Elem.node "JMdict" [] none [])

/-- Spec-side definition, following the claim's words: the gloss text is the
join with `"; "` of the whitespace-trimmed clauses (split on `;`) of the
record's meaning text that contain at least one character in
U+00C0..U+1EF9; if no clause contains such a character, the gloss text is
the full original meaning text verbatim. -/
def gloss_text_claim (meanText : String) : String :=
  let clauses := (py_split ';' meanText).map py_strip
  let qualifying := clauses.filter (fun m => m.data.any isVietChar)
  if qualifying.isEmpty then meanText else String.intercalate "; " qualifying

/-- The texts of the Vietnamese-tagged glosses of a sense element. -/
def vi_gloss_texts (sense : Elem) : List String :=
  sense.children.filterMap (fun c =>
    if c.tag == "gloss" && c.attrs.contains ("xml:lang", "vi") then c.text else none)

/-- Spec-side definition, following the claim's words: matching iterates the
headword forms in original order, then (only if all headword forms fail) the
reading forms in original order; for each form it first selects the first
store candidate whose headword equals the query string exactly, and only if
none qualifies selects the first candidate whose phonetic field, split on
whitespace, contains the query string as a whole token; the first form
yielding an accepted candidate wins; with no match the result is `none`. -/
def claim_select (db : DB) (el : Elem) : Option Word :=
  match el.text with
  | none => none
  | some q =>
    let candidates := get_words db (some q)
    match candidates.find? (fun w => w.word == q) with
    | some w => some w
    | none =>
      candidates.find? (fun w =>
        match w.phonetic with
        | some p => (py_split ' ' p).contains q
        | none => false)

def find_match_claim (db : DB) (kanji_elements reading_elements : List Elem) :
    Option Word :=
  (kanji_elements ++ reading_elements).findSome? (claim_select db)

/-- First-occurrence deduplication of kanji rows by their `kanji` key,
relative to an already-seen key list. -/
def dedup_by_kanji : List String → List KanjiRow → List KanjiRow
  | _, [] => []
  | seen, k :: rest =>
    if seen.contains k.kanji then dedup_by_kanji seen rest
    else k :: dedup_by_kanji (k.kanji :: seen) rest

/-- The seen-key list after absorbing a row list. -/
def seen_after : List String → List KanjiRow → List String
  | seen, [] => seen
  | seen, k :: rest =>
    if seen.contains k.kanji then seen_after seen rest
    else seen_after (k.kanji :: seen) rest

/-- The kanji rows `process_entry` collects for an entry (empty when the
collection raises). -/
def kanjis_of (db : DB) (entry : Elem) : List KanjiRow :=
  match collect_kanjis db ((findall_path entry "k_ele" "keb").map Elem.text) with
  | Except.ok p => p.2
  | Except.error _ => []

/-- What the orchestrator is meant to leave at an input entry's index: the
processed entry, or the original on a deserialization failure of the
returned form. -/
def processed_or_fallback (db : DB) (e : Elem) : Elem :=
  match process_entry db (ET_tostring e) with
  | Except.ok s =>
    match ET_fromstring s with
    | Except.ok e2 => e2
    | Except.error _ => e
  | Except.error _ => e

/-- Concrete data for witnesses and counterexamples. -/
def db_empty : DB := { words := [], kanji := [] }

def row_nichi : KanjiRow :=
  { kanji := "日", hanzi := some "nhật", onyomi := none, kunyomi := none,
    mean := none, level := none, priority := none, info := none, anki := some "note1" }

def row_nichi_no_hanzi : KanjiRow :=
  { kanji := "日", hanzi := none, onyomi := none, kunyomi := none,
    mean := none, level := none, priority := none, info := none, anki := some "note1" }

def db_kanji_only : DB := { words := [], kanji := [row_nichi] }

/-- `<entry><k_ele><keb>日</keb></k_ele></entry>` -/
def entry_nichi : Elem :=
  Elem.node "entry" [] none [Elem.node "k_ele" [] none [Elem.node "keb" [] (some "日") []]]

/-- `<entry><k_ele><keb>語</keb></k_ele></entry>` -/
def entry_go : Elem :=
  Elem.node "entry" [] none [Elem.node "k_ele" [] none [Elem.node "keb" [] (some "語") []]]

/-- `<entry><k_ele><keb/></k_ele></entry>`: a headword form with no text. -/
def entry_empty_keb : Elem :=
  Elem.node "entry" [] none [Elem.node "k_ele" [] none [Elem.node "keb" [] none []]]

def row_word_sample : WordRow :=
  { word := some "日本語", phonetic := some "にほんご", mean := some "tiếng Nhật; Japanese language",
    is_common := some 1, priority := none, info := none, anki := some "w-note" }

def db_words_only : DB := { words := [row_word_sample], kanji := [] }

/-- `<keb>日本語</keb>` -/
def el_nihongo : Elem := Elem.node "keb" [] (some "日本語") []

/-- The entries a chunk-file parse outcome contributes to the merge. -/
def chunk_entries : Except String Elem → List Elem
  | Except.ok root => root.children.filter (fun c => c.tag == "entry")
  | Except.error _ => []

theorem Elem.withChildren_self (e : Elem) : e.withChildren e.children = e := by
  cases e
  rfl

theorem Elem.children_withChildren (e : Elem) (cs : List Elem) :
    (e.withChildren cs).children = cs := by
  cases e
  rfl

theorem Elem.withChildren_withChildren (e : Elem) (cs ds : List Elem) :
    ((e.withChildren cs).withChildren ds) = e.withChildren ds := by
  cases e
  rfl

theorem Elem.tag_withChildren (e : Elem) (cs : List Elem) :
    (e.withChildren cs).tag = e.tag := by
  cases e
  rfl

theorem first_sense_index_some {cs : List Elem} {i : Nat}
    (h : first_sense_index cs = some i) :
    cs.take i = cs.takeWhile (fun c => !(c.tag == "sense")) ∧
      cs.drop i = cs.dropWhile (fun c => !(c.tag == "sense")) := by
  induction cs generalizing i with
  | nil => simp [first_sense_index] at h
  | cons c rest ih =>
    by_cases hc : c.tag = "sense"
    · simp only [first_sense_index, hc] at h
      simp at h
      subst h
      simp [hc]
    · have hc2 : (c.tag == "sense") = false := by simp [hc]
      simp only [first_sense_index, hc2, Bool.false_eq_true, if_false,
        Option.map_eq_some'] at h
      obtain ⟨j, hj, rfl⟩ := h
      obtain ⟨h1, h2⟩ := ih hj
      constructor
      · simp [List.take_succ_cons, List.takeWhile_cons, hc2, h1]
      · simp [List.drop_succ_cons, List.dropWhile_cons, hc2, h2]

theorem first_sense_index_none {cs : List Elem}
    (h : first_sense_index cs = none) :
    cs.takeWhile (fun c => !(c.tag == "sense")) = cs ∧
      cs.dropWhile (fun c => !(c.tag == "sense")) = [] := by
  induction cs with
  | nil => exact ⟨rfl, rfl⟩
  | cons c rest ih =>
    by_cases hc : c.tag = "sense"
    · simp only [first_sense_index, hc] at h
      simp at h
    · have hc2 : (c.tag == "sense") = false := by simp [hc]
      simp only [first_sense_index, hc2, Bool.false_eq_true, if_false,
        Option.map_eq_none'] at h
      obtain ⟨h1, h2⟩ := ih h
      simp [List.takeWhile_cons, List.dropWhile_cons, hc2, h1, h2]

/-- C7: for every entry and synthesized block list, an empty list leaves the
entry unchanged; otherwise the blocks are spliced, in the given order,
immediately before the first existing `sense` child (that is, after the
longest sense-free leading run of children), or appended at the end when
the entry has no `sense` child; the tag, attributes, text and the relative
order of all other children are untouched. -/
theorem claim_C7 (entry : Elem) (new : List Elem) :
    insert_sense_elements entry [] = entry ∧
      insert_sense_elements entry new =
        entry.withChildren
          (if new.isEmpty then entry.children
           else
             entry.children.takeWhile (fun c => !(c.tag == "sense")) ++ new ++
               entry.children.dropWhile (fun c => !(c.tag == "sense"))) := by
  constructor
  · simp [insert_sense_elements]
  · by_cases hn : new.isEmpty
    · simp [insert_sense_elements, hn, Elem.withChildren_self]
    · simp only [insert_sense_elements, hn, Bool.false_eq_true, if_false, if_neg]
      cases hf : first_sense_index entry.children with
      | some i =>
        obtain ⟨h1, h2⟩ := first_sense_index_some hf
        show entry.withChildren
            (entry.children.take i ++ new ++ entry.children.drop i) = _
        rw [h1, h2]
      | none =>
        obtain ⟨h1, h2⟩ := first_sense_index_none hf
        show entry.withChildren (entry.children ++ new) = _
        rw [h1, h2, List.append_nil]

theorem merge_foldl (files : List (Except String Elem)) (acc : Elem) :
    files.foldl (fun merged_root f =>
      match f with
      | Except.ok root =>
        merged_root.withChildren
          (merged_root.children ++ root.children.filter (fun c => c.tag == "entry"))
      | Except.error _ => merged_root) acc =
      acc.withChildren (acc.children ++ files.flatMap chunk_entries) := by
  induction files generalizing acc with
  | nil => simp [Elem.withChildren_self]
  | cons f rest ih =>
    cases f with
    | ok root =>
      simp only [List.foldl_cons, ih, Elem.children_withChildren,
        Elem.withChildren_withChildren, List.flatMap_cons, chunk_entries]
      rw [List.append_assoc]
    | error msg =>
      simp only [List.foldl_cons, ih, List.flatMap_cons, chunk_entries]
      rw [List.nil_append]

/-- C8: the merge collaborator produces a corpus whose entry sequence is
exactly the concatenation, in file-discovery order, of the `entry` children
of every well-formed chunk file; a chunk file that fails to parse is
skipped without affecting the entries taken from the other files. -/
theorem claim_C8 (files pre post : List (Except String Elem)) (msg : String) :
    merge_xml_files files =
        Elem.node "JMdict" [] none (files.flatMap chunk_entries) ∧
      merge_xml_files (pre ++ Except.error msg :: post) =
        merge_xml_files (pre ++ post) := by
  have key : ∀ fs : List (Except String Elem),
      merge_xml_files fs = Elem.node "JMdict" [] none (fs.flatMap chunk_entries) := by
    intro fs
    rw [merge_xml_files, merge_foldl]
    rfl
  refine ⟨key files, ?_⟩
  rw [key, key]
  simp [chunk_entries]

theorem word_mean_eq_gloss_text_claim (r : WordRow) (m : String)
    (hr : r.mean = some m) : (mkWord r).mean = gloss_text_claim m := by
  show (match r.mean with
    | some m => if m == "" then "" else process_mean m
    | none => "") = gloss_text_claim m
  rw [hr]
  by_cases hm : m = ""
  · subst hm
    decide
  · have hb : (m == "") = false := by simp [hm]
    show (if (m == "") = true then "" else process_mean m) = gloss_text_claim m
    rw [hb]
    simp only [Bool.false_eq_true, if_false]
    rfl

theorem to_xml_vi_glosses (sd : StarDict) :
    sd.to_xml_sense_elements.flatMap vi_gloss_texts =
      if sd.mean != "" then [sd.mean] else [] := by
  have hmean : vi_gloss_texts sd.mean_sense = [sd.mean] := by
    unfold StarDict.mean_sense vi_gloss_texts
    by_cases ha : truthy sd.mean_anki <;>
      simp [ha, Elem.children, Elem.tag, Elem.attrs, Elem.text]
  have hhanzi : vi_gloss_texts sd.hanzi_sense = [] := by
    unfold StarDict.hanzi_sense vi_gloss_texts
    simp [Elem.children, Elem.tag, Elem.attrs, List.filterMap_map, Function.comp]
  unfold StarDict.to_xml_sense_elements
  by_cases hm : sd.mean = "" <;> by_cases hh : sd.hanzi = "" <;>
    simp [hm, hh, hmean, hhanzi]

/-- C3: for a matched translation record with meaning text `m`, the
meaning-sense gloss text (the Vietnamese-tagged gloss of the synthesized
blocks) equals the `"; "`-join of the whitespace-trimmed `;`-clauses of `m`
containing a character in U+00C0..U+1EF9, or `m` verbatim when no clause
qualifies; the meaning-sense block is emitted exactly when that text is
non-empty. -/
theorem claim_C3 (r : WordRow) (m : String) (hr : r.mean = some m)
    (sd : StarDict) (hsd : sd.mean = (mkWord r).mean) :
    sd.mean = gloss_text_claim m ∧
      sd.to_xml_sense_elements.flatMap vi_gloss_texts =
        (if sd.mean != "" then [sd.mean] else []) :=
  ⟨hsd.trans (word_mean_eq_gloss_text_claim r m hr), to_xml_vi_glosses sd⟩

theorem claim_C3_witness :
    (StarDict.mk "" [] (mkWord row_word_sample).mean (some "w-note")).mean =
        gloss_text_claim "tiếng Nhật; Japanese language" ∧
      (StarDict.mk "" [] (mkWord row_word_sample).mean
            (some "w-note")).to_xml_sense_elements.flatMap vi_gloss_texts =
        (if (StarDict.mk "" [] (mkWord row_word_sample).mean (some "w-note")).mean != ""
         then [(StarDict.mk "" [] (mkWord row_word_sample).mean (some "w-note")).mean]
         else []) :=
  claim_C3 row_word_sample "tiếng Nhật; Japanese language" rfl
    (StarDict.mk "" [] (mkWord row_word_sample).mean (some "w-note")) rfl

/-- C10: when every collected character record lacks an alternate-script
rendering, the joined character-variant string is empty and no
character-sense block is emitted, even when some records carry annotation
references (their notes appear nowhere in the output blocks). -/
theorem claim_C10 (kanjis : List KanjiRow) (mean : String)
    (mean_anki : Option String) (h : ∀ k ∈ kanjis, ¬ truthy k.hanzi) :
    hanzi_join kanjis = "" ∧
      (StarDict.mk (hanzi_join kanjis) (anki_notes kanjis) mean
          mean_anki).to_xml_sense_elements =
        (if mean != "" then
          [StarDict.mean_sense
            (StarDict.mk (hanzi_join kanjis) (anki_notes kanjis) mean mean_anki)]
         else []) := by
  have hfilter : kanjis.filter (fun k => truthy k.hanzi) = [] :=
    List.filter_eq_nil_iff.mpr (by simpa using h)
  have hj : hanzi_join kanjis = "" := by
    unfold hanzi_join
    rw [hfilter]
    rfl
  refine ⟨hj, ?_⟩
  show (if mean != "" then _ else []) ++ (if hanzi_join kanjis != "" then _ else []) = _
  rw [hj]
  by_cases hm : mean = "" <;> simp [hm]

theorem claim_C10_witness :
    hanzi_join [row_nichi_no_hanzi] = "" ∧
      (StarDict.mk (hanzi_join [row_nichi_no_hanzi])
          (anki_notes [row_nichi_no_hanzi]) "" none).to_xml_sense_elements =
        (if "" != "" then
          [StarDict.mean_sense
            (StarDict.mk (hanzi_join [row_nichi_no_hanzi])
              (anki_notes [row_nichi_no_hanzi]) "" none)]
         else []) :=
  claim_C10 [row_nichi_no_hanzi] "" none (by decide)

theorem add_kanjis_eq (l : List KanjiRow) :
    ∀ (seen : List String) (ks : List KanjiRow),
      add_kanjis (seen, ks) l = (seen_after seen l, ks ++ dedup_by_kanji seen l) := by
  induction l with
  | nil =>
    intro seen ks
    simp [add_kanjis, seen_after, dedup_by_kanji]
  | cons k rest ih =>
    intro seen ks
    by_cases hk : k.kanji ∈ seen
    · show add_kanjis (if seen.contains k.kanji then _ else _) rest = _
      rw [if_pos (by simpa using hk)]
      rw [ih seen ks]
      simp [seen_after, dedup_by_kanji, hk]
    · show add_kanjis (if seen.contains k.kanji then _ else _) rest = _
      rw [if_neg (by simpa using hk)]
      rw [ih (k.kanji :: seen) (ks ++ [k])]
      have h1 : seen_after seen (k :: rest) = seen_after (k.kanji :: seen) rest := by
        simp [seen_after, hk]
      have h2 : dedup_by_kanji seen (k :: rest) = k :: dedup_by_kanji (k.kanji :: seen) rest := by
        simp [dedup_by_kanji, hk]
      rw [h1, h2, List.append_assoc]
      rfl

theorem collect_loop_map_some (db : DB) (texts : List String) :
    ∀ acc, collect_kanjis_loop db (texts.map some) acc =
      Except.ok (texts.foldl (fun acc t => add_kanjis acc (get_kanji_from_word db t)) acc) := by
  induction texts with
  | nil => intro acc; rfl
  | cons t rest ih =>
    intro acc
    show collect_kanjis_loop db (rest.map some) _ = _
    rw [ih]
    rfl

theorem foldl_add_kanjis (db : DB) (texts : List String) :
    ∀ (seen : List String) (ks : List KanjiRow),
      texts.foldl (fun acc t => add_kanjis acc (get_kanji_from_word db t)) (seen, ks) =
        (seen_after seen (texts.flatMap (get_kanji_from_word db)),
          ks ++ dedup_by_kanji seen (texts.flatMap (get_kanji_from_word db))) := by
  have seen_after_append : ∀ (l1 l2 : List KanjiRow) (seen : List String),
      seen_after seen (l1 ++ l2) = seen_after (seen_after seen l1) l2 := by
    intro l1
    induction l1 with
    | nil => intro l2 seen; rfl
    | cons k rest ih =>
      intro l2 seen
      by_cases hk : k.kanji ∈ seen <;> simp [seen_after, hk, ih]
  have dedup_append : ∀ (l1 l2 : List KanjiRow) (seen : List String),
      dedup_by_kanji seen (l1 ++ l2) =
        dedup_by_kanji seen l1 ++ dedup_by_kanji (seen_after seen l1) l2 := by
    intro l1
    induction l1 with
    | nil => intro l2 seen; rfl
    | cons k rest ih =>
      intro l2 seen
      by_cases hk : k.kanji ∈ seen <;>
        simp [dedup_by_kanji, seen_after, hk, ih]
  induction texts with
  | nil =>
    intro seen ks
    simp [seen_after, dedup_by_kanji]
  | cons t rest ih =>
    intro seen ks
    rw [List.foldl_cons, add_kanjis_eq, ih, List.flatMap_cons,
      seen_after_append, dedup_append, List.append_assoc]

theorem dedup_by_kanji_nodup (l : List KanjiRow) :
    ∀ seen : List String,
      ((dedup_by_kanji seen l).map (fun k => k.kanji)).Nodup ∧
        ∀ k ∈ dedup_by_kanji seen l, k.kanji ∉ seen := by
  induction l with
  | nil => intro seen; simp [dedup_by_kanji]
  | cons k rest ih =>
    intro seen
    by_cases hk : k.kanji ∈ seen
    · simpa [dedup_by_kanji, hk] using ih seen
    · have hkm : k.kanji ∉ seen := hk
      obtain ⟨h1, h2⟩ := ih (k.kanji :: seen)
      have hd : dedup_by_kanji seen (k :: rest) =
          k :: dedup_by_kanji (k.kanji :: seen) rest := by
        simp [dedup_by_kanji, hk]
      rw [hd]
      constructor
      · rw [List.map_cons, List.nodup_cons]
        refine ⟨?_, h1⟩
        intro hmem
        obtain ⟨k2, hk2, hkey⟩ := List.mem_map.mp hmem
        exact absurd (hkey ▸ List.mem_cons_self k.kanji seen) (h2 k2 hk2)
      · intro k2 hk2
        rcases List.mem_cons.mp hk2 with h | h
        · exact h ▸ hkm
        · exact fun hs => h2 k2 h (List.mem_cons_of_mem _ hs)

/-- C6: the character records collected for an entry are exactly the
first-occurrence deduplication, by character key, of the concatenated
per-headword-form lookups — each distinct ideographic character contributes
at most once (the collected keys are pairwise distinct) and the records
appear in first-seen order across the headword forms. -/
theorem claim_C6 (db : DB) (texts : List String) :
    collect_kanjis db (texts.map some) =
        Except.ok
          (seen_after [] (texts.flatMap (get_kanji_from_word db)),
            dedup_by_kanji [] (texts.flatMap (get_kanji_from_word db))) ∧
      ((dedup_by_kanji []
          (texts.flatMap (get_kanji_from_word db))).map (fun k => k.kanji)).Nodup := by
  constructor
  · rw [collect_kanjis, collect_loop_map_some, foldl_add_kanjis]
    rfl
  · exact (dedup_by_kanji_nodup _ []).1

theorem find?_congr {α : Type} {p q : α → Bool} :
    ∀ l : List α, (∀ a ∈ l, p a = q a) → l.find? p = l.find? q := by
  intro l
  induction l with
  | nil => intro _; rfl
  | cons a rest ih =>
    intro h
    rw [List.find?_cons, List.find?_cons, h a (List.mem_cons_self a rest)]
    cases q a
    · exact ih (fun x hx => h x (List.mem_cons_of_mem a hx))
    · rfl

theorem findSome?_congr {α β : Type} {f g : α → Option β} :
    ∀ l : List α, (∀ a ∈ l, f a = g a) → l.findSome? f = l.findSome? g := by
  intro l
  induction l with
  | nil => intro _; rfl
  | cons a rest ih =>
    intro h
    rw [List.findSome?_cons, List.findSome?_cons, h a (List.mem_cons_self a rest)]
    cases g a
    · exact ih (fun x hx => h x (List.mem_cons_of_mem a hx))
    · rfl

theorem select_eq_filter_word (db : DB) (el : Elem) (h : el.text ≠ some "") :
    claim_select db el = filter_word el.text (get_words db el.text) := by
  unfold claim_select filter_word
  cases ht : el.text with
  | none =>
    have h1 : (get_words db none).find? (fun w =>
        match (none : Option String) with
        | some q => w.word == q
        | none => false) = none :=
      List.find?_eq_none.mpr (fun x _ => by simp)
    rw [h1]
    have h2 : (get_words db none).find? (fun w =>
        match w.phonetic, (none : Option String) with
        | some p, some q => p != "" && (py_split ' ' p).contains q
        | _, _ => false) = none :=
      List.find?_eq_none.mpr (fun x _ => by cases x.phonetic <;> simp)
    rw [h2]
  | some q =>
    have hq : q ≠ "" := by
      intro hq0
      exact h (by rw [ht, hq0])
    show (match (get_words db (some q)).find? (fun w => w.word == q) with
      | some w => some w
      | none =>
        (get_words db (some q)).find? (fun w =>
          match w.phonetic with
          | some p => (py_split ' ' p).contains q
          | none => false)) = _
    have hfirst : (get_words db (some q)).find? (fun w =>
        match some q with
        | some q2 => w.word == q2
        | none => false) = (get_words db (some q)).find? (fun w => w.word == q) := rfl
    rw [hfirst]
    have hsecond : (get_words db (some q)).find? (fun w =>
        match w.phonetic, some q with
        | some p, some q2 => p != "" && (py_split ' ' p).contains q2
        | _, _ => false) = (get_words db (some q)).find? (fun w =>
        match w.phonetic with
        | some p => (py_split ' ' p).contains q
        | none => false) := by
      apply find?_congr
      intro w _
      cases hp : w.phonetic with
      | none => rfl
      | some p =>
        show (p != "" && (py_split ' ' p).contains q) = (py_split ' ' p).contains q
        by_cases hpe : p = ""
        · subst hpe
          have e1 : py_split ' ' "" = [""] := rfl
          rw [e1]
          simp [hq]
        · have : (p != "") = true := by simpa using hpe
          rw [this, Bool.true_and]
    rw [hsecond]

/-- C2: the matching procedure equals the claim's description: iterate the
headword forms in order, then (only if all fail) the reading forms in
order; per form, take the first store candidate whose headword equals the
query exactly, else the first whose phonetic field split on whitespace
contains the query as a whole token; the first form with an accepted
candidate wins, and with no match the result is `none`, not an error.
(The hypothesis records that, as ElementTree guarantees, no form carries an
empty-string text: an empty element has text `None`.) -/
theorem claim_C2 (db : DB) (ks rs : List Elem)
    (h : ∀ el ∈ ks ++ rs, el.text ≠ some "") :
    find_relevant_word db ks rs = find_match_claim db ks rs := by
  unfold find_match_claim
  rw [List.findSome?_append]
  have hks : ks.findSome? (claim_select db) =
      ks.findSome? (fun k_ele => filter_word k_ele.text (get_words db k_ele.text)) :=
    findSome?_congr ks (fun el hel =>
      select_eq_filter_word db el (h el (List.mem_append_left rs hel)))
  have hrs : rs.findSome? (claim_select db) =
      rs.findSome? (fun r_ele => filter_word r_ele.text (get_words db r_ele.text)) :=
    findSome?_congr rs (fun el hel =>
      select_eq_filter_word db el (h el (List.mem_append_right ks hel)))
  rw [hks, hrs]
  unfold find_relevant_word
  cases ks.findSome? (fun k_ele => filter_word k_ele.text (get_words db k_ele.text)) <;> rfl

theorem claim_C2_witness :
    find_relevant_word db_words_only [el_nihongo] [] =
      find_match_claim db_words_only [el_nihongo] [] :=
  claim_C2 db_words_only [el_nihongo] [] (by
    intro el hel
    simp only [List.append_nil, List.mem_singleton] at hel
    subst hel
    decide)

theorem collect_loop_none_mem (db : DB) :
    ∀ (texts : List (Option String)) (acc : List String × List KanjiRow),
      none ∈ texts →
      collect_kanjis_loop db texts acc =
        Except.error "TypeError: NoneType is not iterable" := by
  intro texts
  induction texts with
  | nil =>
    intro acc h
    simp at h
  | cons t rest ih =>
    intro acc h
    cases t with
    | none => rfl
    | some s =>
      have hr : none ∈ rest := by simpa using h
      exact ih _ hr

theorem collect_loop_all_some (db : DB) :
    ∀ (texts : List (Option String)) (acc : List String × List KanjiRow),
      (∀ t ∈ texts, t ≠ none) →
      ∃ p, collect_kanjis_loop db texts acc = Except.ok p := by
  intro texts
  induction texts with
  | nil =>
    intro acc _
    exact ⟨acc, rfl⟩
  | cons t rest ih =>
    intro acc h
    cases t with
    | none => exact absurd rfl (h none (List.mem_cons_self none rest))
    | some s =>
      exact ih _ (fun t2 ht2 => h t2 (List.mem_cons_of_mem _ ht2))

/-- C9: an entry containing a headword-form element with no text content
(an empty `keb`) makes `process_entry` raise an uncaught `TypeError`
instead of returning a result, so no fallback to the original form happens
inside the worker. -/
theorem claim_C9 (db : DB) (entry : Elem)
    (h : none ∈ (findall_path entry "k_ele" "keb").map Elem.text) :
    process_entry db (ET_tostring entry) =
      Except.error "TypeError: NoneType is not iterable" := by
  have hc : collect_kanjis db ((findall_path entry "k_ele" "keb").map Elem.text) =
      Except.error "TypeError: NoneType is not iterable" :=
    collect_loop_none_mem db _ ([], []) h
  have hcore : process_entry_core db entry =
      Except.error "TypeError: NoneType is not iterable" := by
    unfold process_entry_core
    simp only [hc]
  have hpe : process_entry db (ET_tostring entry) =
      (match process_entry_core db entry with
       | Except.error e => Except.error e
       | Except.ok modified => Except.ok (ET_tostring modified)) := rfl
  rw [hpe, hcore]

theorem claim_C9_witness :
    none ∈ (findall_path entry_empty_keb "k_ele" "keb").map Elem.text ∧
      process_entry db_empty (ET_tostring entry_empty_keb) =
        Except.error "TypeError: NoneType is not iterable" :=
  ⟨by decide, claim_C9 db_empty entry_empty_keb (by decide)⟩

theorem hanzi_join_eq_empty (kanjis : List KanjiRow)
    (h : ∀ k ∈ kanjis, ¬ truthy k.hanzi) : hanzi_join kanjis = "" := by
  unfold hanzi_join
  rw [List.filter_eq_nil_iff.mpr (by simpa using h)]
  rfl

/-- C5 counterexample: with an empty `words` table but a `kanji` table
entry for `日`, the matching engine finds no headword or reading match for
`<entry><k_ele><keb>日</keb></k_ele></entry>`, yet `process_entry` does
not return the entry unchanged — it appends a character-sense block. -/
theorem claim_C5_counterexample :
    find_relevant_word db_kanji_only
        (findall_path entry_nichi "k_ele" "keb")
        (findall_path entry_nichi "r_ele" "reb") = none ∧
      process_entry db_kanji_only (ET_tostring entry_nichi) ≠
        Except.ok (ET_tostring entry_nichi) := by
  refine ⟨rfl, ?_⟩
  intro hcontra
  have hlen := congrArg (fun r =>
    match r with
    | Except.ok (StrForm.good e) => e.children.length
    | _ => 0) hcontra
  exact absurd hlen (by decide)

/-- C5 (amended): when the matching engine finds no headword or reading
match, every headword form has text, and no collected character record has
an alternate-script rendering, the output entry equals the input exactly. -/
theorem claim_C5_amended (db : DB) (entry : Elem)
    (hw : find_relevant_word db (findall_path entry "k_ele" "keb")
        (findall_path entry "r_ele" "reb") = none)
    (ht : ∀ t ∈ (findall_path entry "k_ele" "keb").map Elem.text, t ≠ none)
    (hz : ∀ k ∈ kanjis_of db entry, ¬ truthy k.hanzi) :
    process_entry db (ET_tostring entry) = Except.ok (ET_tostring entry) := by
  obtain ⟨p, hp⟩ := collect_loop_all_some db
    ((findall_path entry "k_ele" "keb").map Elem.text) ([], []) ht
  have hcol : collect_kanjis db ((findall_path entry "k_ele" "keb").map Elem.text) =
      Except.ok p := hp
  have hz2 : ∀ k ∈ p.2, ¬ truthy k.hanzi := by
    unfold kanjis_of at hz
    rw [hcol] at hz
    exact hz
  have hj : hanzi_join p.2 = "" := hanzi_join_eq_empty p.2 hz2
  have hcore : process_entry_core db entry = Except.ok entry := by
    unfold process_entry_core
    simp only [hcol, hw, hj]
    rfl
  have hpe : process_entry db (ET_tostring entry) =
      (match process_entry_core db entry with
       | Except.error e => Except.error e
       | Except.ok modified => Except.ok (ET_tostring modified)) := rfl
  rw [hpe, hcore]

theorem claim_C5_amended_witness :
    process_entry db_empty (ET_tostring entry_nichi) =
      Except.ok (ET_tostring entry_nichi) :=
  claim_C5_amended db_empty entry_nichi rfl (by decide) (by decide)

/-- C4 counterexample: the claim also covers "an exception raised during
matching", but such an exception (here the `TypeError` from an empty `keb`
headword form) is not caught anywhere: the run aborts with the error
instead of substituting the original entry at that index. -/
theorem claim_C4_counterexample :
    update_jmdict_with_vietnamese_parallel db_empty [0] [entry_empty_keb] =
      Except.error "TypeError: NoneType is not iterable" := rfl

/-- C4 (amended): for every entry whose returned serialized form fails to
deserialize, the fan-in loop substitutes the original unmodified entry at
that index and continues; all other entries of the run are collected
exactly as they would be without the failure.  (An exception raised during
matching, by contrast, propagates and aborts the run.) -/
theorem claim_C4_amended (e1s e2s : List Elem) (orig : Elem)
    (m1s m2s : List StrForm) (h1 : m1s.length = e1s.length) :
    collect_into_root (e1s ++ orig :: e2s) (m1s ++ StrForm.bad :: m2s) =
      collect_into_root e1s m1s ++ orig :: collect_into_root e2s m2s := by
  unfold collect_into_root
  rw [List.zipWith_append _ _ _ _ _ h1.symm]
  rfl

theorem claim_C4_amended_witness :
    collect_into_root [entry_nichi, entry_go]
        [ET_tostring entry_nichi, StrForm.bad] =
      collect_into_root [entry_nichi] [ET_tostring entry_nichi] ++
        entry_go :: collect_into_root [] [] :=
  claim_C4_amended [entry_nichi] [] entry_go [ET_tostring entry_nichi] [] rfl

theorem gather_fold_length (db : DB) (strs : List StrForm) :
    ∀ (order : List Nat) (tbl : List (Option (Except String StrForm))),
      (order.foldl (fun tbl i =>
        match strs[i]? with
        | some t => tbl.set i (some (process_entry db t))
        | none => tbl) tbl).length = tbl.length := by
  intro order
  induction order with
  | nil => intro tbl; rfl
  | cons i rest ih =>
    intro tbl
    rw [List.foldl_cons, ih]
    cases hi : strs[i]? with
    | some t => exact List.length_set tbl i _
    | none => rfl

theorem gather_fold_getElem (db : DB) (strs : List StrForm) :
    ∀ (order : List Nat) (tbl : List (Option (Except String StrForm))) (j : Nat),
      tbl.length = strs.length → j < strs.length →
      (order.foldl (fun tbl i =>
        match strs[i]? with
        | some t => tbl.set i (some (process_entry db t))
        | none => tbl) tbl)[j]? =
        (if j ∈ order then (strs[j]?).map (fun t => some (process_entry db t))
         else tbl[j]?) := by
  intro order
  induction order with
  | nil =>
    intro tbl j hlen hj
    simp
  | cons i rest ih =>
    intro tbl j hlen hj
    rw [List.foldl_cons]
    cases hi : strs[i]? with
    | none =>
      have hji : j ≠ i := by
        intro hji
        subst hji
        exact absurd hj (Nat.not_lt.mpr (List.getElem?_eq_none_iff.mp hi))
      rw [ih tbl j hlen hj]
      by_cases hjr : j ∈ rest <;> simp [hjr, hji]
    | some t =>
      have hilt : i < strs.length := by
        by_contra hc
        rw [List.getElem?_eq_none (Nat.le_of_not_lt hc)] at hi
        simp at hi
      rw [ih (tbl.set i (some (process_entry db t))) j
        (by rw [List.length_set]; exact hlen) hj]
      by_cases hjr : j ∈ rest
      · simp [hjr]
      · by_cases hji : j = i
        · subst hji
          rw [List.getElem?_set_self (by rwa [hlen])]
          simp [hjr, hi]
        · rw [List.getElem?_set_ne (fun he => hji he.symm)]
          simp [hjr, hji]

theorem gather_results_perm (db : DB) (strs : List StrForm) (order : List Nat)
    (hperm : order.Perm (List.range strs.length)) :
    gather_results db strs order =
      strs.map (fun t => some (process_entry db t)) := by
  apply List.ext_getElem?
  intro j
  by_cases hj : j < strs.length
  · rw [gather_results, gather_fold_getElem db strs order _ j (by simp) hj]
    have hmem : j ∈ order := hperm.mem_iff.mpr (List.mem_range.mpr hj)
    rw [if_pos hmem, List.getElem?_map]
  · have h1 : strs.length ≤ j := Nat.le_of_not_lt hj
    rw [List.getElem?_eq_none, List.getElem?_eq_none]
    · rwa [List.length_map]
    · rw [gather_results, gather_fold_length]
      rwa [List.length_replicate]

theorem drain_results_map (db : DB) :
    ∀ (entries : List Elem) (out_strs : List StrForm),
      drain_results ((entries.map ET_tostring).map
          (fun t => some (process_entry db t))) = Except.ok out_strs →
      collect_into_root entries out_strs = entries.map (processed_or_fallback db) := by
  intro entries
  induction entries with
  | nil =>
    intro out h
    cases h
    rfl
  | cons e es ih =>
    intro out h
    simp only [List.map_cons] at h
    cases hpe2 : process_entry db (ET_tostring e) with
    | error msg =>
      rw [hpe2] at h
      simp [drain_results] at h
    | ok s =>
      rw [hpe2] at h
      simp only [drain_results] at h
      cases hdr : drain_results ((es.map ET_tostring).map
          (fun t => some (process_entry db t))) with
      | error m2 =>
        rw [hdr] at h
        simp [Except.map] at h
      | ok l =>
        rw [hdr] at h
        simp only [Except.map] at h
        cases h
        show collect_into_root (e :: es) (s :: l) = _
        rw [List.map_cons]
        have hhead : (match ET_fromstring s with
            | Except.ok e2 => e2
            | Except.error _ => e) = processed_or_fallback db e := by
          unfold processed_or_fallback
          rw [hpe2]
        calc collect_into_root (e :: es) (s :: l)
            = (match ET_fromstring s with
                | Except.ok e2 => e2
                | Except.error _ => e) :: collect_into_root es l := rfl
          _ = processed_or_fallback db e :: es.map (processed_or_fallback db) := by
              rw [hhead, ih l hdr]

/-- C1: whenever the orchestrator run completes, its output has exactly as
many entries as the input, and the entry at each index `i` is the
processed (or fallen-back original) form of the input entry at index `i` —
no reordering, duplication or dropping — for every worker completion
order. -/
theorem claim_C1 (db : DB) (order : List Nat) (entries out : List Elem)
    (hperm : order.Perm (List.range entries.length))
    (hok : update_jmdict_with_vietnamese_parallel db order entries = Except.ok out) :
    out.length = entries.length ∧
      out = entries.map (processed_or_fallback db) ∧
      ∀ i : Nat, out[i]? = (entries[i]?).map (processed_or_fallback db) := by
  have hperm2 : order.Perm (List.range (entries.map ET_tostring).length) := by
    rwa [List.length_map]
  have hg : gather_results db (entries.map ET_tostring) order =
      (entries.map ET_tostring).map (fun t => some (process_entry db t)) :=
    gather_results_perm db _ order hperm2
  have hu : update_jmdict_with_vietnamese_parallel db order entries =
      (match pool_imap db order (entries.map ET_tostring) with
       | Except.error e => Except.error e
       | Except.ok ms => Except.ok (collect_into_root entries ms)) := rfl
  rw [hu, pool_imap, hg] at hok
  cases hdr : drain_results ((entries.map ET_tostring).map
      (fun t => some (process_entry db t))) with
  | error m =>
    rw [hdr] at hok
    simp at hok
  | ok ms =>
    rw [hdr] at hok
    simp only [] at hok
    have hout : out = collect_into_root entries ms := by
      cases hok
      rfl
    have hcol := drain_results_map db entries ms hdr
    rw [← hout] at hcol
    refine ⟨?_, hcol, ?_⟩
    · rw [hcol, List.length_map]
    · intro i
      rw [hcol, List.getElem?_map]

theorem claim_C1_witness :
    ([entry_nichi, entry_go] : List Elem).length = 2 ∧
      ([entry_nichi, entry_go] : List Elem) =
        [entry_nichi, entry_go].map (processed_or_fallback db_empty) ∧
      ∀ i : Nat, ([entry_nichi, entry_go] : List Elem)[i]? =
        (([entry_nichi, entry_go] : List Elem)[i]?).map (processed_or_fallback db_empty) := by
  have h := claim_C1 db_empty [1, 0] [entry_nichi, entry_go]
    [entry_nichi, entry_go] (by decide) rfl
  exact ⟨rfl, h.2.1, h.2.2⟩

end JmdictVi
